import Mathlib

/-!
Verification development for the expression-graph / reverse-mode autodiff core
of this repository.  The visible source surface is the operator-declaration
header (src/graph/expression_operators.h); the graph engine itself
(forward/backward execution, interning, checkpointing, shape utilities) is
declared there but implemented elsewhere, so those parts are modelled from the
specification and clearly marked as such.  Numeric buffers are modelled with
rationals (exact arithmetic standing in for the idealized real semantics of the
spec).
-/

namespace Marian

/-- Error taxonomy of the core, following the spec section 7: construction-time
shape, type and axis errors, the episode-state error, and the error for
operator variants that are declared but intentionally unimplemented. -/
inductive EngineError where
  | ShapeError
  | TypeError
  | AxisError
  | GraphStateError
  | UnsupportedOperationError
deriving DecidableEq

/-! ## Shape / type model (spec section 4.1)

Modelled from the spec: the shape utilities (broadcast compatibility and axis
normalization) are part of the hidden engine implementation; only their
contract appears in the spec.  A shape is the ordered list of axis extents. -/

/-- A tensor shape: ordered list of axis extents. -/
abbrev ShapeL := List Nat

/-- Modelled from the spec: decision procedure for broadcast compatibility.
Two shapes are broadcast-compatible if, comparing trailing axes, each pair of
extents is equal or one of them is 1. -/
def compatBool (a b : ShapeL) : Bool :=
  (List.zip a.reverse b.reverse).all fun p => p.1 == p.2 || p.1 == 1 || p.2 == 1

/-- Modelled from the spec: the broadcast result on reversed (trailing-first)
shapes, combining each aligned pair by the broadcast rule and keeping the
longer shape's excess axes. -/
def bcastCombineRev : List Nat → List Nat → List Nat
  | [], ys => ys
  | x :: xs, [] => x :: xs
  | x :: xs, y :: ys => (if x = y then x else if x = 1 then y else x) :: bcastCombineRev xs ys

/-- Modelled from the spec: worker for broadcastShapes on reversed shapes;
fails with ShapeError on the first incompatible pair of trailing extents. -/
def bcastRev : List Nat → List Nat → Except EngineError (List Nat)
  | [], ys => .ok ys
  | x :: xs, [] => .ok (x :: xs)
  | x :: xs, y :: ys =>
    match bcastRev xs ys with
    | .error e => .error e
    | .ok rest =>
      if x = y then .ok (x :: rest)
      else if x = 1 then .ok (y :: rest)
      else if y = 1 then .ok (x :: rest)
      else .error .ShapeError

/-- Modelled from the spec: broadcastShapes(a, b) returns the broadcast shape,
or fails with ShapeError when the shapes are not broadcast-compatible. -/
def broadcastShapes (a b : ShapeL) : Except EngineError ShapeL :=
  match bcastRev a.reverse b.reverse with
  | .ok r => .ok r.reverse
  | .error e => .error e

/-- The expected broadcast result, stated directly from the spec's words. -/
def broadcastExpected (a b : ShapeL) : ShapeL :=
  (bcastCombineRev a.reverse b.reverse).reverse

/-- Modelled from the spec: normalizeAxis(axis, rank) wraps a negative axis by
adding the rank, and fails with AxisError when the axis is outside
the half-open interval from -rank to rank. -/
def normalizeAxis (axis : Int) (rank : Nat) : Except EngineError Nat :=
  if -(rank : Int) ≤ axis ∧ axis < (rank : Int) then
    .ok (if axis < 0 then (axis + rank).toNat else axis.toNat)
  else .error .AxisError

/-! ## Tape / autodiff engine (spec sections 4.2-4.5)

Modelled from the spec: the Graph, Tape, forward walk, reverse-mode backward
walk with gradient accumulation, node interning, episode state machine and
checkpoint/recompute mechanism are all part of the hidden engine
implementation; only their contracts are visible.  Scalar buffers are used
(rank-0 tensors), which suffice for the scheduling, accumulation, interning
and recomputation claims. -/

namespace AD

/-- Modelled from the spec: one operator instance together with the ids of
its input Nodes.  A leaf (constant or parameter) carries its initialized
buffer value and its trainability flag; the interior operators are the
addition and multiplication nodes of the expression surface, enough to
exercise fan-out, accumulation and recomputation. -/
inductive Op where
  | leaf (v : ℚ) (train : Bool)
  | add (i j : Nat)
  | mul (i j : Nat)
deriving DecidableEq

/-- The ids of an operator's inputs, in slot order. -/
def Op.inputs : Op → List Nat
  | .leaf _ _ => []
  | .add i j => [i, j]
  | .mul i j => [i, j]

/-- Modelled from the spec: a graph Node wraps one operator instance plus the
checkpoint flag; forward and gradient buffers live in the execution state. -/
structure Node where
  op : Op
  checkpoint : Bool
deriving DecidableEq

/-- Modelled from the spec: the Tape is the creation-ordered list of Nodes; a
Node's id is its creation index. -/
abbrev Graph := List Node

/-- Construction-order well-formedness (acyclicity by construction): every
input id of a node is smaller than the node's own creation index. -/
def wfb (g : Graph) : Bool :=
  (List.range g.length).all fun k =>
    match g[k]? with
    | some n => n.op.inputs.all fun i => decide (i < k)
    | none => true

/-- Propositional form of tape well-formedness. -/
def WF (g : Graph) : Prop := wfb g = true

instance (g : Graph) : Decidable (WF g) :=
  inferInstanceAs (Decidable (wfb g = true))

/-- Modelled from the spec: the forward value of each node, each computed
from the already materialized values of its inputs; this is the per-node
value that the creation-order tape walk of forward() materializes. -/
def forwardVal (g : Graph) (k : Nat) : ℚ :=
  match g[k]? with
  | none => 0
  | some n =>
    match n.op with
    | .leaf v _ => v
    | .add i j =>
      (if h : i < k then forwardVal g i else 0) + (if h : j < k then forwardVal g j else 0)
    | .mul i j =>
      (if h : i < k then forwardVal g i else 0) * (if h : j < k then forwardVal g j else 0)
termination_by k

/-- Whether a node is trainable: a leaf by its flag, an interior node when
any of its inputs is (gradients are never computed for non-trainable
nodes). -/
def trainable (g : Graph) (k : Nat) : Bool :=
  match g[k]? with
  | none => false
  | some n =>
    match n.op with
    | .leaf _ t => t
    | .add i j =>
      (if h : i < k then trainable g i else false) || (if h : j < k then trainable g j else false)
    | .mul i j =>
      (if h : i < k then trainable g i else false) || (if h : j < k then trainable g j else false)
termination_by k

/-- Gradient accumulation into one buffer: adds into (never overwrites) the
gradient at index i. -/
def accumGrad (gr : Nat → ℚ) (i : Nat) (d : ℚ) : Nat → ℚ :=
  fun j => if j = i then gr j + d else gr j

/-- Modelled from the spec: one backward step.  The operator's backward is
invoked with the node's own gradient buffer and accumulates the chain-rule
contribution into each trainable input's gradient buffer; non-trainable
inputs are skipped, and a leaf has no inputs. -/
def backStep (g : Graph) (vals gr : Nat → ℚ) (k : Nat) : Nat → ℚ :=
  match g[k]? with
  | none => gr
  | some n =>
    match n.op with
    | .leaf _ _ => gr
    | .add a b =>
      let gk := gr k
      let gr1 := if trainable g a then accumGrad gr a gk else gr
      if trainable g b then accumGrad gr1 b gk else gr1
    | .mul a b =>
      let gk := gr k
      let gr1 := if trainable g a then accumGrad gr a (gk * vals b) else gr
      if trainable g b then accumGrad gr1 b (gk * vals a) else gr1

/-- The single chain-rule contribution that the backward step of consumer k
adds into the gradient buffer of node i (zero when i is not a trainable
input of k). -/
def contrib (g : Graph) (vals gr : Nat → ℚ) (k i : Nat) : ℚ :=
  match g[k]? with
  | none => 0
  | some n =>
    match n.op with
    | .leaf _ _ => 0
    | .add a b =>
      (if i = a ∧ trainable g a then gr k else 0) +
      (if i = b ∧ trainable g b then gr k else 0)
    | .mul a b =>
      (if i = a ∧ trainable g a then gr k * vals b else 0) +
      (if i = b ∧ trainable g b then gr k * vals a else 0)

/-- Modelled from the spec: the backward walk over the Tape in strict reverse
creation order; backLoop g vals gr t still has to process indices t-1 down
to 0. -/
def backLoop (g : Graph) (vals : Nat → ℚ) : (Nat → ℚ) → Nat → (Nat → ℚ)
  | gr, 0 => gr
  | gr, t + 1 => backLoop g vals (backStep g vals gr t) t

/-- Modelled from the spec: the backward seed, a gradient of ones accumulated
into the designated output node's (the last created node's) gradient
buffer. -/
def seedGrad (g : Graph) : Nat → ℚ :=
  fun k => if k + 1 = g.length then 1 else 0

/-- Modelled from the spec: the full backward pass over a tape, reading
forward values through the vals buffer accessor. -/
def backwardRun (g : Graph) (vals : Nat → ℚ) : Nat → ℚ :=
  backLoop g vals (seedGrad g) g.length

/-- The gradient buffers after forward() and backward() with no checkpointed
node: every forward value is still materialized. -/
def finalGrad (g : Graph) : Nat → ℚ :=
  backwardRun g (forwardVal g)

/-- Marking one node of the graph as checkpoint (the checkpoint(a) operation
of the header, line 14): only the flag changes, the operator and the tape
order do not. -/
def markCheckpoint : Graph → Nat → Graph
  | [], _ => []
  | n :: rest, 0 => ⟨n.op, true⟩ :: rest
  | n :: rest, m + 1 => n :: markCheckpoint rest m

/-- Modelled from the spec: the materialized buffer store at the start of
backward when checkpointing is active: a checkpointed node's forward buffer
was eagerly released after its consumers' forward computations (absent), all
other nodes still hold their forward value. -/
def ckStore (g : Graph) : Nat → Option ℚ :=
  fun k =>
    match g[k]? with
    | none => none
    | some n => if n.checkpoint then none else some (forwardVal g k)

/-- Modelled from the spec: the buffer accessor used during backward under
checkpointing.  A still-materialized buffer is read directly; a released
buffer is transparently recomputed by re-running forward on the subgraph
rooted at the node, recursively recomputing released inputs as needed. -/
def getValCk (g : Graph) (store : Nat → Option ℚ) (k : Nat) : ℚ :=
  match store k with
  | some v => v
  | none =>
    match g[k]? with
    | none => 0
    | some n =>
      match n.op with
      | .leaf v _ => v
      | .add i j =>
        (if h : i < k then getValCk g store i else 0)
          + (if h : j < k then getValCk g store j else 0)
      | .mul i j =>
        (if h : i < k then getValCk g store i else 0)
          * (if h : j < k then getValCk g store j else 0)
termination_by k

/-- The gradient buffers after forward() and backward() on a graph with
checkpointed nodes: backward reads buffers through the recomputing
accessor. -/
def finalGradCk (g : Graph) : Nat → ℚ :=
  backwardRun g (getValCk g (ckStore g))

/-- Modelled from the spec: the deduplication index lookup: the creation
index of the first node on the tape with the given structural key (equal
operator kind, parameters and reference-equal inputs). -/
def findKey : Graph → Op → Option Nat
  | [], _ => none
  | n :: rest, op => if n.op = op then some 0 else (findKey rest op).map (· + 1)

/-- Modelled from the spec: node construction with interning.  If an equal
node already exists in the episode, a reference to it is returned and the
tape is unchanged; otherwise the new node is appended to the tape and a
fresh reference returned. -/
def applyOp (g : Graph) (op : Op) : Graph × Nat :=
  match findKey g op with
  | some i => (g, i)
  | none => (g ++ [⟨op, false⟩], g.length)

/-- How many nodes on the tape have the given structural key. -/
def countKey (g : Graph) (op : Op) : Nat :=
  g.countP fun n => decide (n.op = op)

/-- The interning invariant: no two nodes on the tape share a structural
key. -/
def Dedup (g : Graph) : Prop :=
  List.Pairwise (fun n m => n.op ≠ m.op) g

instance (g : Graph) : Decidable (Dedup g) :=
  inferInstanceAs (Decidable (List.Pairwise _ g))

/-- Modelled from the spec: one computation episode over a graph; the
forward-value buffers are absent until forward() has run in this episode. -/
structure Episode where
  g : Graph
  vals : Option (Nat → ℚ)

/-- Starting a fresh episode: no forward pass has run yet. -/
def Episode.start (g : Graph) : Episode := ⟨g, none⟩

/-- Modelled from the spec: forward() walks the tape and materializes every
node's forward buffer. -/
def Episode.runForward (e : Episode) : Episode :=
  ⟨e.g, some (forwardVal e.g)⟩

/-- Modelled from the spec: backward() requires a prior forward() in the same
episode; if forward was not run it fails with GraphStateError, otherwise it
returns the accumulated gradient buffers. -/
def Episode.runBackward (e : Episode) : Except EngineError (Nat → ℚ) :=
  match e.vals with
  | none => .error .GraphStateError
  | some v => .ok (backwardRun e.g v)

end AD

/-! ## Expression-building surface (src/graph/expression_operators.h)

The operator-building functions return Expr handles referencing freshly built
(or reused) Nodes.  For the claims about the header's own inline wrappers
(dropout, constant_like, narrow, single-index slice) and about the declared
but unimplemented N-ary activation variants, expressions are embedded
symbolically: an Expr carries the graph it belongs to, its shape, its element
type, and a syntax tree whose equality is Node identity for these wrappers. -/

/-- Element type of a tensor, following the spec's ElementType (an enumerated
numeric kind). -/
inductive ElemType where
  | float32
  | float16
  | int32
  | bool8
deriving DecidableEq

/-- Slice descriptor as used by the slicing operators: begin, end, stride.
Modelled from the spec and the header's call sites: Slice(b, e) has stride 1,
and Slice(i) abbreviates Slice(i, i + 1). -/
structure MSlice where
  b : Int
  e : Int
  stride : Int
deriving DecidableEq

/-- The two-argument Slice constructor: stride defaults to 1. -/
def MSlice.mk2 (b e : Int) : MSlice := ⟨b, e, 1⟩

/-- The single-index Slice constructor: Slice(i) = Slice(i, i + 1). -/
def MSlice.single (i : Int) : MSlice := ⟨i, i + 1, 1⟩

/-- Single-input activation kinds used by the activation claims. -/
inductive ActKind where
  | sigmoidA
  | swishA
  | geluA
  | reluA
  | leakyreluA
deriving DecidableEq

/-- Symbolic node tree: the identity of an expression for the header's inline
wrappers.  Each constructor corresponds to one node-building operation. -/
inductive SymTree where
  | leafNode (id : Nat)
  | constNode (graphId : Nat) (shape : ShapeL) (initId : Nat) (vtype : ElemType)
  | dropoutMaskNode (graphId : Nat) (p : ℚ) (shape : ShapeL)
  | mulNode (a b : SymTree)
  | sliceNode (a : SymTree) (axis : Int) (s : MSlice)
  | actNode (op : ActKind) (a : SymTree)
  | preluNode (alpha : ℚ) (a : SymTree)
deriving DecidableEq

/-- A user-facing Expr handle: the graph it was created in, its shape, its
element type, and the node tree that identifies it. -/
structure ExprC where
  graphId : Nat
  shape : ShapeL
  vtype : ElemType
  tree : SymTree
deriving DecidableEq

/-- Modelled from the spec: operator*(Expr, Expr), an elementwise
multiplication node built on a's graph (MultNodeOp; its body is not part of
the visible header). -/
def mulExpr (a b : ExprC) : ExprC :=
  ⟨a.graphId, a.shape, a.vtype, .mulNode a.tree b.tree⟩

/-- Modelled from the spec: graph->dropoutMask(dropProb, shape) produces a
mask expression of the given shape in that graph. -/
def mkDropoutMask (graphId : Nat) (dropProb : ℚ) (shape : ShapeL) : ExprC :=
  ⟨graphId, shape, .float32, .dropoutMaskNode graphId dropProb shape⟩

/-- dropout(Expr x, Expr mask), from the header (expression_operators.h,
lines 746-751): if the mask is non-null return x * mask, else return x
itself.  The possibly-null C++ Expr argument is an Option here. -/
def dropoutWithMask (x : ExprC) (mask : Option ExprC) : ExprC :=
  match mask with
  | some m => mulExpr x m
  | none => x

/-- dropout(Expr x, float dropProb, Shape shape), from the header (lines
753-759): returns x itself when dropProb == 0, otherwise builds a dropout
mask of the given shape in x's graph and multiplies. -/
def dropoutShaped (x : ExprC) (dropProb : ℚ) (shape : ShapeL) : ExprC :=
  if dropProb = 0 then x
  else dropoutWithMask x (some (mkDropoutMask x.graphId dropProb shape))

/-- dropout(Expr x, float dropProb), from the header (lines 761-765): returns
x itself when dropProb == 0, otherwise delegates with x's own shape. -/
def dropoutProb (x : ExprC) (dropProb : ℚ) : ExprC :=
  if dropProb = 0 then x else dropoutShaped x dropProb x.shape

/-- Modelled from the spec: graph->constant(shape, init, type) creates a
constant node of that shape and element type in the graph (the initializer is
identified by an id; its produced buffer is outside this surface). -/
def graphConstant (graphId : Nat) (shape : ShapeL) (initId : Nat) (t : ElemType) : ExprC :=
  ⟨graphId, shape, t, .constNode graphId shape initId t⟩

/-- constant_like(a, init), from the header (lines 619-621): delegates to
a->graph()->constant(a->shape(), init, a->value_type()). -/
def constant_like (a : ExprC) (initId : Nat) : ExprC :=
  graphConstant a.graphId a.shape initId a.vtype

/-- Whether an expression's node is a constant node. -/
def ExprC.isConstant (a : ExprC) : Bool :=
  match a.tree with
  | .constNode _ _ _ _ => true
  | _ => false

/-- Modelled from the spec: the underlying slice(Expr, int, Slice) operator
(declared in the header at line 702, body elsewhere); builds a slice node on
a. -/
def sliceOp (a : ExprC) (axis : Int) (s : MSlice) : ExprC :=
  ⟨a.graphId, a.shape, a.vtype, .sliceNode a.tree axis s⟩

/-- slice(Expr a, int axis, int index), from the header (lines 705-707):
single-index convenience wrapper delegating to slice(a, axis, Slice(index)). -/
def sliceIndex (a : ExprC) (axis : Int) (index : Int) : ExprC :=
  sliceOp a axis (MSlice.single index)

/-- narrow(Expr a, int axis, size_t start, size_t length), from the header
(lines 709-711): delegates to slice(a, axis, Slice(start, start + length)). -/
def narrow (a : ExprC) (axis : Int) (start length : Nat) : ExprC :=
  sliceOp a axis (MSlice.mk2 (start : Int) ((start + length : Nat) : Int))

/-- Single-input sigmoid(Expr), declared at line 44 of the header; builds an
activation node. -/
def sigmoid1 (a : ExprC) : ExprC :=
  ⟨a.graphId, a.shape, a.vtype, .actNode .sigmoidA a.tree⟩

/-- Single-input swish(Expr), declared at line 62 of the header. -/
def swish1 (a : ExprC) : ExprC :=
  ⟨a.graphId, a.shape, a.vtype, .actNode .swishA a.tree⟩

/-- Single-input gelu(Expr), declared at line 86 of the header. -/
def gelu1 (a : ExprC) : ExprC :=
  ⟨a.graphId, a.shape, a.vtype, .actNode .geluA a.tree⟩

/-- Single-input relu(Expr), declared at line 118 of the header. -/
def relu1 (a : ExprC) : ExprC :=
  ⟨a.graphId, a.shape, a.vtype, .actNode .reluA a.tree⟩

/-- Single-input leakyrelu(Expr), declared at line 143 of the header. -/
def leakyrelu1 (a : ExprC) : ExprC :=
  ⟨a.graphId, a.shape, a.vtype, .actNode .leakyreluA a.tree⟩

/-- Single-input prelu(Expr, alpha), declared at line 167 of the header. -/
def prelu1 (a : ExprC) (alpha : ℚ) : ExprC :=
  ⟨a.graphId, a.shape, a.vtype, .preluNode alpha a.tree⟩

/-- Modelled from the spec: the N-ary sigmoid variant (declared at line 50 of
the header, marked not implemented); restricted to single-input use, it fails
fast with UnsupportedOperationError on any other input count. -/
def sigmoidN (nodes : List ExprC) : Except EngineError ExprC :=
  match nodes with
  | [x] => .ok (sigmoid1 x)
  | _ => .error .UnsupportedOperationError

/-- Modelled from the spec: the N-ary swish variant (declared at line 69 of
the header, not implemented for more than one input; returns swish(nodes[0])
for a single input). -/
def swishN (nodes : List ExprC) : Except EngineError ExprC :=
  match nodes with
  | [x] => .ok (swish1 x)
  | _ => .error .UnsupportedOperationError

/-- Modelled from the spec: the N-ary gelu variant (declared at line 93 of
the header, not implemented for more than one input; returns gelu(nodes[0])
for a single input). -/
def geluN (nodes : List ExprC) : Except EngineError ExprC :=
  match nodes with
  | [x] => .ok (gelu1 x)
  | _ => .error .UnsupportedOperationError

/-- Modelled from the spec: the N-ary relu variant (declared at line 125 of
the header, not implemented for more than one input; returns relu(nodes[0])
for a single input). -/
def reluN (nodes : List ExprC) : Except EngineError ExprC :=
  match nodes with
  | [x] => .ok (relu1 x)
  | _ => .error .UnsupportedOperationError

/-- Modelled from the spec: the N-ary leakyrelu variant (declared at line 149
of the header, marked not implemented); restricted to single-input use. -/
def leakyreluN (nodes : List ExprC) : Except EngineError ExprC :=
  match nodes with
  | [x] => .ok (leakyrelu1 x)
  | _ => .error .UnsupportedOperationError

/-- Modelled from the spec: the N-ary prelu variant (declared at line 173 of
the header, marked not implemented); restricted to single-input use. -/
def preluN (nodes : List ExprC) (alpha : ℚ) : Except EngineError ExprC :=
  match nodes with
  | [x] => .ok (prelu1 x alpha)
  | _ => .error .UnsupportedOperationError

/-- The two-node tape of y = a * a: a trainable leaf of value 3 consumed
twice by the same product node. -/
def gradEx : AD.Graph := [⟨.leaf 3 true, false⟩, ⟨.mul 0 0, false⟩]

/-- A two-leaf tape used to instantiate the deduplication claim. -/
def dedupEx : AD.Graph := [⟨.leaf 1 true, false⟩, ⟨.leaf 2 true, false⟩]

/-- A throwaway concrete expression used to instantiate universally
quantified claims. -/
def exprEx0 : ExprC := ⟨0, [2, 3], .float32, .leafNode 0⟩

/-- A second throwaway concrete expression. -/
def exprEx1 : ExprC := ⟨0, [2, 3], .float32, .leafNode 1⟩

/-! ## Supporting lemmas -/

lemma bcastRev_ok_of_compat (xs ys : List Nat)
    (h : (List.zip xs ys).all (fun p => p.1 == p.2 || p.1 == 1 || p.2 == 1) = true) :
    bcastRev xs ys = .ok (bcastCombineRev xs ys) := by
  induction xs generalizing ys with
  | nil => cases ys <;> rfl
  | cons x xs ih =>
    cases ys with
    | nil => rfl
    | cons y ys =>
      simp only [List.zip_cons_cons, List.all_cons, Bool.and_eq_true] at h
      obtain ⟨hp, hrest⟩ := h
      have hrec := ih ys hrest
      simp only [bcastRev, hrec, bcastCombineRev]
      simp only [Bool.or_eq_true, beq_iff_eq] at hp
      rcases hp with (hxy | hx1) | hy1
      · simp [hxy]
      · by_cases hxy : x = y
        · simp [hxy]
        · subst hx1
          simp only [bcastCombineRev, hxy, if_false, if_true]
      · by_cases hxy : x = y
        · simp [hxy]
        · by_cases hx1 : x = 1
          · subst hx1
            simp only [bcastCombineRev, hxy, if_false, if_true]
          · simp [hxy, hx1, hy1]

lemma bcastRev_error_shape (xs ys : List Nat) (e : EngineError)
    (h : bcastRev xs ys = .error e) : e = .ShapeError := by
  induction xs generalizing ys e with
  | nil => simp [bcastRev] at h
  | cons x xs ih =>
    cases ys with
    | nil => simp [bcastRev] at h
    | cons y ys =>
      simp only [bcastRev] at h
      cases hrec : bcastRev xs ys with
      | error e2 =>
        rw [hrec] at h
        cases h
        exact ih ys e hrec
      | ok rest =>
        rw [hrec] at h
        split_ifs at h <;> cases h
        rfl

lemma bcastRev_error_of_not_compat (xs ys : List Nat)
    (h : (List.zip xs ys).all (fun p => p.1 == p.2 || p.1 == 1 || p.2 == 1) = false) :
    bcastRev xs ys = .error .ShapeError := by
  induction xs generalizing ys with
  | nil => simp at h
  | cons x xs ih =>
    cases ys with
    | nil => simp at h
    | cons y ys =>
      simp only [List.zip_cons_cons, List.all_cons, Bool.and_eq_false_iff] at h
      cases hrec : bcastRev xs ys with
      | error e2 =>
        have he2 := bcastRev_error_shape xs ys e2 hrec
        subst he2
        simp [bcastRev, hrec]
      | ok rest =>
        rcases h with hp | hrest
        · simp only [Bool.or_eq_false_iff, beq_eq_false_iff_ne, ne_eq] at hp
          obtain ⟨⟨hxy, hx1⟩, hy1⟩ := hp
          simp [bcastRev, hrec, hxy, hx1, hy1]
        · have := ih ys hrest
          rw [this] at hrec
          cases hrec

namespace AD

lemma WF.inputs_lt {g : Graph} (hwf : WF g) {k : Nat} {n : Node}
    (hk : g[k]? = some n) {i : Nat} (hi : i ∈ n.op.inputs) : i < k := by
  have hklen : k < g.length := (List.getElem?_eq_some_iff.mp hk).1
  unfold WF wfb at hwf
  rw [List.all_eq_true] at hwf
  have hx := hwf k (List.mem_range.mpr hklen)
  simp only [hk] at hx
  rw [List.all_eq_true] at hx
  exact of_decide_eq_true (hx i hi)

lemma contrib_eq_zero_of_le {g : Graph} (hwf : WF g) (vals gr : Nat → ℚ) {k i : Nat}
    (hki : k ≤ i) : contrib g vals gr k i = 0 := by
  unfold contrib
  cases hk : g[k]? with
  | none => rfl
  | some n =>
    obtain ⟨op, ck⟩ := n
    cases op with
    | leaf v t => rfl
    | add a b =>
      have ha : a < k := hwf.inputs_lt hk (by simp [Op.inputs])
      have hb : b < k := hwf.inputs_lt hk (by simp [Op.inputs])
      have hia : ¬(i = a) := by omega
      have hib : ¬(i = b) := by omega
      simp [hia, hib]
    | mul a b =>
      have ha : a < k := hwf.inputs_lt hk (by simp [Op.inputs])
      have hb : b < k := hwf.inputs_lt hk (by simp [Op.inputs])
      have hia : ¬(i = a) := by omega
      have hib : ¬(i = b) := by omega
      simp [hia, hib]

lemma backStep_apply (g : Graph) (vals gr : Nat → ℚ) (k i : Nat) :
    backStep g vals gr k i = gr i + contrib g vals gr k i := by
  unfold backStep contrib
  cases hk : g[k]? with
  | none => simp
  | some n =>
    obtain ⟨op, ck⟩ := n
    cases op with
    | leaf v t => simp
    | add a b =>
      by_cases hta : trainable g a <;> by_cases htb : trainable g b <;>
        simp only [accumGrad, hta, htb, Bool.false_eq_true, if_true, if_false,
          and_true, and_false, ite_true, ite_false, add_zero, zero_add] <;>
        first
        | ring1
        | (split_ifs <;> ring1)
    | mul a b =>
      by_cases hta : trainable g a <;> by_cases htb : trainable g b <;>
        simp only [accumGrad, hta, htb, Bool.false_eq_true, if_true, if_false,
          and_true, and_false, ite_true, ite_false, add_zero, zero_add] <;>
        first
        | ring1
        | (split_ifs <;> ring1)

lemma contrib_congr (g : Graph) (vals : Nat → ℚ) {gr1 gr2 : Nat → ℚ} (k i : Nat)
    (h : gr1 k = gr2 k) : contrib g vals gr1 k i = contrib g vals gr2 k i := by
  unfold contrib
  cases g[k]? with
  | none => rfl
  | some n =>
    obtain ⟨op, ck⟩ := n
    cases op <;> simp [h]

lemma backLoop_frozen (g : Graph) (vals : Nat → ℚ) (hwf : WF g) :
    ∀ (t : Nat) (gr : Nat → ℚ) (i : Nat), t ≤ i → backLoop g vals gr t i = gr i := by
  intro t
  induction t with
  | zero =>
    intro gr i _
    rfl
  | succ t ih =>
    intro gr i hti
    have h1 : backLoop g vals gr (t + 1) i = backLoop g vals (backStep g vals gr t) t i := rfl
    rw [h1, ih _ i (by omega), backStep_apply,
      contrib_eq_zero_of_le hwf _ _ (by omega : t ≤ i), add_zero]

lemma backLoop_sum (g : Graph) (vals : Nat → ℚ) (hwf : WF g) :
    ∀ (t : Nat) (gr : Nat → ℚ) (i : Nat),
      backLoop g vals gr t i
        = gr i
          + Finset.sum (Finset.range t)
              (fun k => contrib g vals (backLoop g vals gr t) k i) := by
  intro t
  induction t with
  | zero =>
    intro gr i
    simp [backLoop]
  | succ t ih =>
    intro gr i
    have hstep : backLoop g vals gr (t + 1) = backLoop g vals (backStep g vals gr t) t := rfl
    rw [hstep, ih (backStep g vals gr t) i, backStep_apply, Finset.sum_range_succ]
    have hfrozen : backLoop g vals (backStep g vals gr t) t t = gr t := by
      rw [backLoop_frozen g vals hwf t _ t (le_refl t), backStep_apply,
        contrib_eq_zero_of_le hwf _ _ (le_refl t), add_zero]
    have hc : contrib g vals gr t i
        = contrib g vals (backLoop g vals (backStep g vals gr t) t) t i :=
      contrib_congr g vals t i hfrozen.symm
    rw [hc]
    ring

lemma dite_lt_congrQ {k i : Nat} (f1 f2 : Nat → ℚ) (h : i < k → f1 i = f2 i) :
    (if hh : i < k then f1 i else 0) = (if hh : i < k then f2 i else 0) := by
  by_cases hi : i < k
  · simp [hi, h hi]
  · simp [hi]

lemma dite_lt_congrB {k i : Nat} (f1 f2 : Nat → Bool) (h : i < k → f1 i = f2 i) :
    (if hh : i < k then f1 i else false) = (if hh : i < k then f2 i else false) := by
  by_cases hi : i < k
  · simp [hi, h hi]
  · simp [hi]

lemma markCheckpoint_length (g : Graph) (m : Nat) :
    (markCheckpoint g m).length = g.length := by
  induction g generalizing m with
  | nil => rfl
  | cons n rest ih =>
    cases m with
    | zero => simp [markCheckpoint]
    | succ m => simp [markCheckpoint, ih]

lemma markCheckpoint_op (g : Graph) (m k : Nat) :
    ((markCheckpoint g m)[k]?).map Node.op = (g[k]?).map Node.op := by
  induction g generalizing m k with
  | nil => rfl
  | cons n rest ih =>
    cases m with
    | zero =>
      cases k with
      | zero => simp [markCheckpoint]
      | succ k => simp [markCheckpoint]
    | succ m =>
      cases k with
      | zero => simp [markCheckpoint]
      | succ k =>
        simp only [markCheckpoint, List.getElem?_cons_succ]
        exact ih m k

lemma forwardVal_mark (g : Graph) (m : Nat) :
    ∀ k, forwardVal (markCheckpoint g m) k = forwardVal g k := by
  intro k
  induction k using Nat.strong_induction_on with
  | _ k ih =>
    have hop := markCheckpoint_op g m k
    rw [forwardVal.eq_def]
    conv_rhs => rw [forwardVal.eq_def]
    cases hg : g[k]? with
    | none =>
      rw [hg] at hop
      cases hg2 : (markCheckpoint g m)[k]? with
      | none => rfl
      | some n2 =>
        rw [hg2] at hop
        simp at hop
    | some n =>
      rw [hg] at hop
      cases hg2 : (markCheckpoint g m)[k]? with
      | none =>
        rw [hg2] at hop
        simp at hop
      | some n2 =>
        rw [hg2] at hop
        obtain ⟨op, ck⟩ := n
        obtain ⟨op2, ck2⟩ := n2
        simp only [Option.map_some', Option.some.injEq] at hop
        cases hop
        cases op with
        | leaf v t => rfl
        | add i j =>
          dsimp only
          rw [dite_lt_congrQ (forwardVal (markCheckpoint g m)) (forwardVal g)
              (fun hi => ih i hi),
            dite_lt_congrQ (forwardVal (markCheckpoint g m)) (forwardVal g)
              (fun hj => ih j hj)]
        | mul i j =>
          dsimp only
          rw [dite_lt_congrQ (forwardVal (markCheckpoint g m)) (forwardVal g)
              (fun hi => ih i hi),
            dite_lt_congrQ (forwardVal (markCheckpoint g m)) (forwardVal g)
              (fun hj => ih j hj)]

lemma trainable_mark (g : Graph) (m : Nat) :
    ∀ k, trainable (markCheckpoint g m) k = trainable g k := by
  intro k
  induction k using Nat.strong_induction_on with
  | _ k ih =>
    have hop := markCheckpoint_op g m k
    rw [trainable.eq_def]
    conv_rhs => rw [trainable.eq_def]
    cases hg : g[k]? with
    | none =>
      rw [hg] at hop
      cases hg2 : (markCheckpoint g m)[k]? with
      | none => rfl
      | some n2 =>
        rw [hg2] at hop
        simp at hop
    | some n =>
      rw [hg] at hop
      cases hg2 : (markCheckpoint g m)[k]? with
      | none =>
        rw [hg2] at hop
        simp at hop
      | some n2 =>
        rw [hg2] at hop
        obtain ⟨op, ck⟩ := n
        obtain ⟨op2, ck2⟩ := n2
        simp only [Option.map_some', Option.some.injEq] at hop
        cases hop
        cases op with
        | leaf v t => rfl
        | add i j =>
          dsimp only
          rw [dite_lt_congrB (trainable (markCheckpoint g m)) (trainable g)
              (fun hi => ih i hi),
            dite_lt_congrB (trainable (markCheckpoint g m)) (trainable g)
              (fun hj => ih j hj)]
        | mul i j =>
          dsimp only
          rw [dite_lt_congrB (trainable (markCheckpoint g m)) (trainable g)
              (fun hi => ih i hi),
            dite_lt_congrB (trainable (markCheckpoint g m)) (trainable g)
              (fun hj => ih j hj)]

lemma backStep_mark (g : Graph) (m : Nat) (vals gr : Nat → ℚ) (k : Nat) :
    backStep (markCheckpoint g m) vals gr k = backStep g vals gr k := by
  unfold backStep
  have hop := markCheckpoint_op g m k
  cases hg : g[k]? with
  | none =>
    rw [hg] at hop
    cases hg2 : (markCheckpoint g m)[k]? with
    | none => rfl
    | some n2 =>
      rw [hg2] at hop
      simp at hop
  | some n =>
    rw [hg] at hop
    cases hg2 : (markCheckpoint g m)[k]? with
    | none =>
      rw [hg2] at hop
      simp at hop
    | some n2 =>
      rw [hg2] at hop
      obtain ⟨op, ck⟩ := n
      obtain ⟨op2, ck2⟩ := n2
      simp only [Option.map_some', Option.some.injEq] at hop
      cases hop
      cases op with
      | leaf v t => rfl
      | add a b => simp only [trainable_mark]
      | mul a b => simp only [trainable_mark]

lemma backLoop_mark (g : Graph) (m : Nat) (vals : Nat → ℚ) :
    ∀ (t : Nat) (gr : Nat → ℚ),
      backLoop (markCheckpoint g m) vals gr t = backLoop g vals gr t := by
  intro t
  induction t with
  | zero =>
    intro gr
    rfl
  | succ t ih =>
    intro gr
    show backLoop (markCheckpoint g m) vals (backStep (markCheckpoint g m) vals gr t) t
        = backLoop g vals (backStep g vals gr t) t
    rw [backStep_mark, ih]

lemma seedGrad_mark (g : Graph) (m : Nat) : seedGrad (markCheckpoint g m) = seedGrad g := by
  funext k
  simp [seedGrad, markCheckpoint_length]

lemma backwardRun_mark (g : Graph) (m : Nat) (vals : Nat → ℚ) :
    backwardRun (markCheckpoint g m) vals = backwardRun g vals := by
  unfold backwardRun
  rw [markCheckpoint_length, seedGrad_mark, backLoop_mark]

lemma ckStore_sound (g : Graph) :
    ∀ k v, ckStore g k = some v → v = forwardVal g k := by
  intro k v h
  unfold ckStore at h
  cases hg : g[k]? with
  | none =>
    rw [hg] at h
    cases h
  | some n =>
    rw [hg] at h
    by_cases hck : n.checkpoint
    · simp [hck] at h
    · simp [hck] at h
      exact h.symm

lemma getValCk_eq (g : Graph) (store : Nat → Option ℚ)
    (hs : ∀ k v, store k = some v → v = forwardVal g k) :
    ∀ k, getValCk g store k = forwardVal g k := by
  intro k
  induction k using Nat.strong_induction_on with
  | _ k ih =>
    rw [getValCk.eq_def]
    cases hst : store k with
    | some v => exact hs k v hst
    | none =>
      conv_rhs => rw [forwardVal.eq_def]
      cases hg : g[k]? with
      | none => rfl
      | some n =>
        obtain ⟨op, ck⟩ := n
        cases op with
        | leaf v t => rfl
        | add i j =>
          dsimp only
          rw [dite_lt_congrQ (getValCk g store) (forwardVal g) (fun hi => ih i hi),
            dite_lt_congrQ (getValCk g store) (forwardVal g) (fun hj => ih j hj)]
        | mul i j =>
          dsimp only
          rw [dite_lt_congrQ (getValCk g store) (forwardVal g) (fun hi => ih i hi),
            dite_lt_congrQ (getValCk g store) (forwardVal g) (fun hj => ih j hj)]

lemma findKey_none_not_mem (g : Graph) (op : Op) :
    findKey g op = none → ∀ n ∈ g, n.op ≠ op := by
  induction g with
  | nil =>
    intro _ n hn
    cases hn
  | cons x rest ih =>
    intro h n hn
    unfold findKey at h
    by_cases hx : x.op = op
    · rw [if_pos hx] at h
      cases h
    · rw [if_neg hx] at h
      rw [Option.map_eq_none'] at h
      cases hn with
      | head => exact hx
      | tail _ hmem => exact ih h n hmem

lemma findKey_some_get (g : Graph) (op : Op) :
    ∀ i, findKey g op = some i → ∃ n, g[i]? = some n ∧ n.op = op := by
  induction g with
  | nil =>
    intro i h
    cases h
  | cons x rest ih =>
    intro i h
    unfold findKey at h
    by_cases hx : x.op = op
    · rw [if_pos hx] at h
      cases h
      exact ⟨x, by simp, hx⟩
    · rw [if_neg hx] at h
      cases hfr : findKey rest op with
      | none =>
        rw [hfr] at h
        cases h
      | some j =>
        rw [hfr] at h
        simp only [Option.map_some', Option.some.injEq] at h
        obtain ⟨n, hn, hop⟩ := ih j hfr
        refine ⟨n, ?_, hop⟩
        rw [← h]
        simpa using hn

lemma findKey_append_none (g : Graph) (op : Op) (x : Node) (hx : x.op = op) :
    findKey g op = none → findKey (g ++ [x]) op = some g.length := by
  induction g with
  | nil =>
    intro _
    simp [findKey, hx]
  | cons n rest ih =>
    intro h
    unfold findKey at h
    by_cases hn : n.op = op
    · rw [if_pos hn] at h
      cases h
    · rw [if_neg hn] at h
      rw [Option.map_eq_none'] at h
      have hgoal : findKey ((n :: rest) ++ [x]) op
          = if n.op = op then some 0
            else (findKey (rest ++ [x]) op).map (· + 1) := rfl
      rw [hgoal, if_neg hn, ih h]
      simp

lemma countKey_le_one_of_dedup (g : Graph) (op : Op) (hd : Dedup g) :
    countKey g op ≤ 1 := by
  induction g with
  | nil => simp [countKey]
  | cons n rest ih =>
    rw [Dedup, List.pairwise_cons] at hd
    obtain ⟨hn, hrest⟩ := hd
    unfold countKey at ih ⊢
    rw [List.countP_cons]
    by_cases hop : n.op = op
    · have h0 : rest.countP (fun m => decide (m.op = op)) = 0 := by
        rw [List.countP_eq_zero]
        intro m hm
        simp only [decide_eq_true_eq]
        intro hmop
        exact hn m hm (hop.trans hmop.symm)
      simp [h0, hop]
    · have hres := ih hrest
      simp only [decide_eq_true_eq, hop, if_false]
      omega

lemma countKey_pos_of_mem {g : Graph} {n : Node} {op : Op} (hn : n ∈ g) (hop : n.op = op) :
    0 < countKey g op := by
  unfold countKey
  rw [List.countP_pos]
  exact ⟨n, hn, by simp [hop]⟩

lemma dedup_applyOp (g : Graph) (op : Op) (hd : Dedup g) : Dedup (applyOp g op).1 := by
  unfold applyOp
  cases hf : findKey g op with
  | some i => exact hd
  | none =>
    have hnm := findKey_none_not_mem g op hf
    unfold Dedup
    rw [List.pairwise_append]
    refine ⟨hd, List.pairwise_singleton _ _, ?_⟩
    intro a ha c hc
    simp only [List.mem_singleton] at hc
    subst hc
    exact hnm a ha

end AD

/-! ## The claims -/

/-- C1: during backward(), every node's gradient buffer ends up holding the
seed plus the *sum* of the chain-rule contributions accumulated (added into,
never overwritten) by every one of its downstream consumers, each computed at
the consumer's own final gradient; in particular a node consumed by more than
one downstream node receives the sum of all those contributions, not the
value from only one path, and non-trainable inputs receive none. -/
theorem C1_gradient_accumulation (g : AD.Graph) (hwf : AD.WF g) (i : Nat) :
    AD.finalGrad g i
      = AD.seedGrad g i
        + Finset.sum (Finset.range g.length)
            (fun k => AD.contrib g (AD.forwardVal g) (AD.finalGrad g) k i) :=
  AD.backLoop_sum g (AD.forwardVal g) hwf g.length (AD.seedGrad g) i

theorem C1_gradient_accumulation_witness :
    AD.WF gradEx
    ∧ AD.finalGrad gradEx 0
      = AD.seedGrad gradEx 0
        + Finset.sum (Finset.range gradEx.length)
            (fun k => AD.contrib gradEx (AD.forwardVal gradEx) (AD.finalGrad gradEx) k 0) :=
  ⟨by decide, C1_gradient_accumulation gradEx (by decide) 0⟩

/-- C2: marking a Node as checkpoint is a pure memory/time tradeoff that
never alters numerical results: on the graph with one node marked checkpoint,
every forward buffer observed through the recomputing accessor (reading
still-materialized buffers and transparently recomputing released ones)
equals the corresponding forward value of the unmarked graph, and the
gradient buffers produced by backward() are identical to those of the run
with no Node checkpointed. -/
theorem C2_checkpoint_transparency (g : AD.Graph) (m : Nat) :
    (∀ k, AD.getValCk (AD.markCheckpoint g m) (AD.ckStore (AD.markCheckpoint g m)) k
        = AD.forwardVal g k)
    ∧ AD.finalGradCk (AD.markCheckpoint g m) = AD.finalGrad g := by
  have h1 : ∀ k, AD.getValCk (AD.markCheckpoint g m) (AD.ckStore (AD.markCheckpoint g m)) k
      = AD.forwardVal g k := by
    intro k
    rw [AD.getValCk_eq (AD.markCheckpoint g m) _ (AD.ckStore_sound _) k]
    exact AD.forwardVal_mark g m k
  refine ⟨h1, ?_⟩
  unfold AD.finalGradCk AD.finalGrad
  rw [AD.backwardRun_mark]
  exact congrArg (AD.backwardRun g) (funext h1)

/-- C3: building a + b a second time with the same Expr references returns
the identical Node (the same creation index), leaves the Tape unchanged, and
the Tape contains a node with that structural key exactly once; the returned
reference does point at an addition node with inputs a and b. -/
theorem C3_dedup_add (g : AD.Graph) (a b : Nat) (hd : AD.Dedup g) :
    (AD.applyOp (AD.applyOp g (.add a b)).1 (.add a b)).2 = (AD.applyOp g (.add a b)).2
    ∧ (AD.applyOp (AD.applyOp g (.add a b)).1 (.add a b)).1 = (AD.applyOp g (.add a b)).1
    ∧ AD.countKey (AD.applyOp g (.add a b)).1 (.add a b) = 1
    ∧ ∃ n, ((AD.applyOp g (.add a b)).1)[(AD.applyOp g (.add a b)).2]? = some n
        ∧ n.op = .add a b := by
  cases hf : AD.findKey g (.add a b) with
  | some i =>
    obtain ⟨n, hn, hop⟩ := AD.findKey_some_get g (.add a b) i hf
    have hmem : n ∈ g := List.getElem?_mem hn
    have hle := AD.countKey_le_one_of_dedup g (.add a b) hd
    have hpos := AD.countKey_pos_of_mem hmem hop
    simp only [AD.applyOp, hf]
    exact ⟨trivial, trivial, by omega, n, hn, hop⟩
  | none =>
    have hfind2 := AD.findKey_append_none g (.add a b) ⟨.add a b, false⟩ rfl hf
    have hcount0 : AD.countKey g (.add a b) = 0 := by
      unfold AD.countKey
      rw [List.countP_eq_zero]
      intro n hn
      simp only [decide_eq_true_eq]
      exact AD.findKey_none_not_mem g (.add a b) hf n hn
    simp only [AD.applyOp, hf, hfind2]
    refine ⟨trivial, trivial, ?_, ⟨.add a b, false⟩, ?_, rfl⟩
    · unfold AD.countKey at hcount0 ⊢
      rw [List.countP_append, hcount0]
      simp
    · exact List.getElem?_concat_length g ⟨.add a b, false⟩

theorem C3_dedup_add_witness :
    AD.Dedup dedupEx
    ∧ (AD.applyOp (AD.applyOp dedupEx (.add 0 1)).1 (.add 0 1)).2
        = (AD.applyOp dedupEx (.add 0 1)).2
    ∧ (AD.applyOp (AD.applyOp dedupEx (.add 0 1)).1 (.add 0 1)).1
        = (AD.applyOp dedupEx (.add 0 1)).1
    ∧ AD.countKey (AD.applyOp dedupEx (.add 0 1)).1 (.add 0 1) = 1 :=
  ⟨by decide,
    (C3_dedup_add dedupEx 0 1 (by decide)).1,
    (C3_dedup_add dedupEx 0 1 (by decide)).2.1,
    (C3_dedup_add dedupEx 0 1 (by decide)).2.2.1⟩

/-- C4: backward() invoked in an episode in which forward() has not run fails
with GraphStateError; the error is a returned value, fatal only to that
episode: starting a fresh episode and running forward() makes backward()
succeed. -/
theorem C4_backward_requires_forward (g g2 : AD.Graph) :
    (AD.Episode.start g).runBackward = .error .GraphStateError
    ∧ ((AD.Episode.start g2).runForward).runBackward
        = .ok (AD.backwardRun g2 (AD.forwardVal g2)) :=
  ⟨rfl, rfl⟩

/-- C5: broadcastShapes(a, b) succeeds with the broadcast shape exactly when,
comparing trailing axes, each pair of extents is equal or one of them is 1,
and fails with ShapeError otherwise; in particular
broadcastShapes([4,1], [1,5]) = [4,5] and broadcastShapes([3,4], [5,4]) fails
with ShapeError. -/
theorem C5_broadcastShapes (a b : ShapeL) :
    (compatBool a b = true → broadcastShapes a b = .ok (broadcastExpected a b))
    ∧ (compatBool a b = false → broadcastShapes a b = .error .ShapeError)
    ∧ broadcastShapes [4, 1] [1, 5] = .ok [4, 5]
    ∧ broadcastShapes [3, 4] [5, 4] = .error .ShapeError := by
  refine ⟨?_, ?_, by rfl, by rfl⟩
  · intro h
    unfold compatBool at h
    unfold broadcastShapes broadcastExpected
    rw [bcastRev_ok_of_compat _ _ h]
  · intro h
    unfold compatBool at h
    unfold broadcastShapes
    rw [bcastRev_error_of_not_compat _ _ h]

theorem C5_broadcastShapes_witness :
    (compatBool [4, 1] [1, 5] = true
      ∧ broadcastShapes [4, 1] [1, 5] = .ok (broadcastExpected [4, 1] [1, 5]))
    ∧ (compatBool [3, 4] [5, 4] = false
      ∧ broadcastShapes [3, 4] [5, 4] = .error .ShapeError) :=
  ⟨⟨by decide, (C5_broadcastShapes [4, 1] [1, 5]).1 (by decide)⟩,
   ⟨by decide, (C5_broadcastShapes [3, 4] [5, 4]).2.1 (by decide)⟩⟩

/-- C6: normalizeAxis(axis, rank) returns a valid non-negative index for every
axis in [-rank, rank), wrapping negative axes by adding the rank (so -1 maps to
rank-1), and fails with AxisError for every axis outside [-rank, rank);
in particular normalizeAxis(-1, 3) = 2 and normalizeAxis(3, 3) fails. -/
theorem C6_normalizeAxis (axis : Int) (rank : Nat) :
    (-(rank : Int) ≤ axis ∧ axis < (rank : Int) →
      ∃ r, normalizeAxis axis rank = .ok r ∧ r < rank
        ∧ (0 ≤ axis → (r : Int) = axis) ∧ (axis < 0 → (r : Int) = axis + rank))
    ∧ (¬(-(rank : Int) ≤ axis ∧ axis < (rank : Int)) →
        normalizeAxis axis rank = .error .AxisError)
    ∧ normalizeAxis (-1) 3 = .ok 2
    ∧ normalizeAxis 3 3 = .error .AxisError := by
  refine ⟨?_, ?_, by rfl, by rfl⟩
  · intro h
    obtain ⟨h1, h2⟩ := h
    refine ⟨if axis < 0 then (axis + rank).toNat else axis.toNat, ?_, ?_, ?_, ?_⟩
    · simp only [normalizeAxis, if_pos (And.intro h1 h2)]
    · split_ifs <;> omega
    · intro hpos
      split_ifs <;> omega
    · intro hneg
      split_ifs <;> omega
  · intro h
    simp only [normalizeAxis, if_neg h]

theorem C6_normalizeAxis_witness :
    (-(3 : Int) ≤ -1 ∧ (-1 : Int) < 3)
    ∧ ∃ r, normalizeAxis (-1) 3 = .ok r ∧ r < 3
        ∧ (0 ≤ (-1 : Int) → (r : Int) = -1) ∧ ((-1 : Int) < 0 → (r : Int) = -1 + 3) :=
  ⟨by decide, (C6_normalizeAxis (-1) 3).1 (by decide)⟩

/-- C7: every multi-input operator variant that is declared but intentionally
unimplemented — sigmoid, leakyrelu, prelu, and the size>1 cases of swish,
gelu, relu on a vector of Exprs — fails fast with UnsupportedOperationError
when given more than one input, rather than silently defining new
semantics. -/
theorem C7_unimplemented_variants (nodes : List ExprC) (h : 1 < nodes.length) :
    sigmoidN nodes = .error .UnsupportedOperationError
    ∧ leakyreluN nodes = .error .UnsupportedOperationError
    ∧ (∀ alpha : ℚ, preluN nodes alpha = .error .UnsupportedOperationError)
    ∧ swishN nodes = .error .UnsupportedOperationError
    ∧ geluN nodes = .error .UnsupportedOperationError
    ∧ reluN nodes = .error .UnsupportedOperationError := by
  match nodes with
  | [] => simp at h
  | [x] => simp at h
  | x :: y :: rest =>
    exact ⟨rfl, rfl, fun _ => rfl, rfl, rfl, rfl⟩

theorem C7_unimplemented_variants_witness :
    1 < ([exprEx0, exprEx1] : List ExprC).length
    ∧ sigmoidN [exprEx0, exprEx1] = .error .UnsupportedOperationError :=
  ⟨by decide, (C7_unimplemented_variants [exprEx0, exprEx1] (by decide)).1⟩

/-- C8: dropout is the identity when no dropping occurs: dropout(x, 0.0)
returns x itself (the same Expr, no new Node), dropout(x, 0, shape) returns x
itself, dropout(x, mask) with a null mask returns x itself, and with a
non-null mask it returns the expression x * mask. -/
theorem C8_dropout_identity (x m : ExprC) (shape : ShapeL) :
    dropoutProb x 0 = x
    ∧ dropoutShaped x 0 shape = x
    ∧ dropoutWithMask x none = x
    ∧ dropoutWithMask x (some m) = mulExpr x m :=
  ⟨by simp [dropoutProb], by simp [dropoutShaped], rfl, rfl⟩

/-- C9: constant_like(a, init) returns a constant Expr created in a's own
graph whose shape equals a->shape() and whose element type equals
a->value_type(); a itself (a pure value here) is unchanged. -/
theorem C9_constant_like (a : ExprC) (initId : Nat) :
    (constant_like a initId).graphId = a.graphId
    ∧ (constant_like a initId).shape = a.shape
    ∧ (constant_like a initId).vtype = a.vtype
    ∧ (constant_like a initId).isConstant = true :=
  ⟨rfl, rfl, rfl, rfl⟩

/-- C10: the slicing convenience wrappers are definitional delegations:
narrow(a, axis, start, length) is slice(a, axis, Slice(start, start+length))
(a slice with stride 1 from start to start+length), and single-index
slice(a, axis, i) is slice(a, axis, Slice(i)) (a stride-1 slice from i to
i+1). -/
theorem C10_slice_wrappers (a : ExprC) (axis : Int) (start length : Nat) (i : Int) :
    narrow a axis start length
      = sliceOp a axis ⟨(start : Int), ((start + length : Nat) : Int), 1⟩
    ∧ sliceIndex a axis i = sliceOp a axis ⟨i, i + 1, 1⟩ :=
  ⟨rfl, rfl⟩

end Marian
